import Mathlib

/-!
# gorm-generics: generic repository over a query-building persistence driver

Shallow embedding of `repository.go` and `model.go`.

* A `*gorm.DB` value is embedded as the chain of builder calls made on a driver
  handle (`DB`), so that "which clauses were added, in which order" is a
  statement about a term.
* The persistence driver and the schema-introspection capability are external
  collaborators; they are parameters (`Env`) that transform an explicit world
  state `W`.
* A method with a pointer receiver becomes a function from the receiver's state
  to its state after the call.  A Go run-time panic (failed type assertion, nil
  dereference) is the `Outcome.panic` result.
-/

set_option autoImplicit false

namespace GormGenerics

/-! ## Data model -/

/-- Go `error` values reported by the driver and by the schema capability. -/
structure Error where
  msg : String
deriving DecidableEq, Repr

/-- The driver's error value for a missing record (`gorm.ErrRecordNotFound`). -/
def ErrRecordNotFound : Error := ⟨"record not found"⟩

/-- The cancellation and deadline carrier `context.Context`; only passed along. -/
abbrev Context := Nat

/-- Query-builder value `*gorm.DB`: a driver handle together with the builder
calls chained on it, innermost call first. -/
inductive DB (M V : Type) where
  | handle (name : Nat)
  | WithContext (db : DB M V) (ctx : Context)
  | Where (db : DB M V) (query : String) (values : List V)
  | Preload (db : DB M V) (association : String)
  | Limit (db : DB M V) (limit : Int)
  | Offset (db : DB M V) (offset : Int)
  | Model (db : DB M V) (model : M)
deriving DecidableEq, Repr

/-- One declared relationship of a parsed schema (`schema.Relationship`); only
its `Name` is read. -/
structure schema.Relationship where
  Name : String
deriving DecidableEq, Repr

/-- The relationship table of a parsed schema (`schema.Relationships`); only the
many-to-many list is read. -/
structure schema.Relationships where
  Many2Many : List schema.Relationship
deriving DecidableEq, Repr

/-- A parsed schema (`schema.Schema`). -/
structure schema.Schema where
  Relationships : schema.Relationships
deriving DecidableEq, Repr

/-- Modelled from the spec: the `Specification` interface is used by
`repository.go` but declared outside the two source files.  Its contract is
`GetQuery() -> conditionExpression` and `GetValues() -> sequence of bound
values`; specifications are immutable value objects, so one is the pair of what
its two methods return. -/
structure Specification (V : Type) where
  GetQuery : String
  GetValues : List V
deriving DecidableEq, Repr

/-- The mapper interface `GormModel[E]` of `model.go`, as implemented by a model
type `M`.  `FromEntity` returns `interface{}`; the result is `some m` when its
dynamic type is `M` and `none` otherwise, which is what the type assertion
`.(M)` at the call sites distinguishes. -/
structure GormModel (M E : Type) where
  ToEntity : M → E
  FromEntity : M → E → Option M

/-- Everything the repository consumes from outside: the zero values of the two
type parameters, the mapper, the schema capability `schema.Parse` and the
driver's finishing calls.  Each capability takes the world state and returns
the new one.  `Parse` receives the model and the handle whose naming strategy
is used; the cache argument is a fresh `sync.Map` at every call. -/
structure Env (W M E V : Type) where
  zeroM : M
  zeroE : E
  model : GormModel M E
  Parse : W → M → DB M V → (Option schema.Schema × Option Error) × W
  Create : W → DB M V → M → (M × Option Error) × W
  Save : W → DB M V → M → (M × Option Error) × W
  Delete : W → DB M V → M → List V → Option Error × W
  First : W → DB M V → M → List V → (M × Option Error) × W
  Find : W → DB M V → (List M × Option Error) × W
  Count : W → DB M V → (Int × Option Error) × W

/-- The repository record `GormRepository[M, E]`. -/
structure GormRepository (M V : Type) where
  db : DB M V
  preloadAssocationsOk : Bool
  preloadAssocations : Bool
  associations : List String
deriving DecidableEq, Repr

/-- Result of running a method: it returns `value` leaving `state`, or it
panics leaving `state`. -/
inductive Outcome (S α : Type) where
  | ret (state : S) (value : α)
  | panic (state : S)
deriving DecidableEq, Repr

/-- The state a method leaves behind, whether it returned or panicked. -/
def Outcome.state {S α : Type} : Outcome S α → S
  | .ret st _ => st
  | .panic st => st

/-- The value a method returned, if it returned. -/
def Outcome.value? {S α : Type} : Outcome S α → Option α
  | .ret _ v => some v
  | .panic _ => none

section Repository

variable {W M E V : Type}

/-! ## Construction and configuration (lines 15-44) -/

/-- `NewRepository`: binds the handle; the other fields take their zero values. -/
def NewRepository (db : DB M V) : GormRepository M V :=
  { db := db, preloadAssocationsOk := false, preloadAssocations := false, associations := [] }

/-- `EnablePreloadAssociations`: sets the flag and returns the receiver. -/
def EnablePreloadAssociations (r : GormRepository M V) : GormRepository M V :=
  { r with preloadAssocations := true }

/-- `DisablePreloadAssociations`: the source assigns `true` here as well and
returns the receiver. -/
def DisablePreloadAssociations (r : GormRepository M V) : GormRepository M V :=
  { r with preloadAssocations := true }

/-- `SetPreloadAssociations`: dispatches on the argument, then returns the
receiver. -/
def SetPreloadAssociations (r : GormRepository M V) (association : Bool) : GormRepository M V :=
  if association then EnablePreloadAssociations r else DisablePreloadAssociations r

/-! ## Association resolution (lines 46-52) -/

/-- The loop of `setAssociations`: append each relationship name to the list. -/
def appendNames (associations : List String) : List schema.Relationship → List String
  | [] => associations
  | i :: rest => appendNames (associations ++ [i.Name]) rest

/-- `setAssociations`: parse the schema of `model`, discard the error, and
append the many-to-many names to `r.associations`.  The schema pointer is
dereferenced without a nil check, so a nil schema panics before any append. -/
def setAssociations (env : Env W M E V) (r : GormRepository M V) (w : W) (model : M) :
    Outcome (GormRepository M V × W) Unit :=
  match env.Parse w model r.db with
  | ((none, _), w1) => .panic (r, w1)
  | ((some sch, _), w1) =>
    .ret ({ r with associations := appendNames r.associations sch.Relationships.Many2Many }, w1) ()

/-! ## Writes and single-record read (lines 54-108) -/

/-- `Insert`.  The state is the world and the caller's entity variable. -/
def Insert (env : Env W M E V) (r : GormRepository M V) (w : W) (ctx : Context) (entity : E) :
    Outcome (W × E) (Option Error) :=
  match env.model.FromEntity env.zeroM entity with
  | none => .panic (w, entity)
  | some model =>
    match env.Create w (r.db.WithContext ctx) model with
    | ((_, some err), w1) => .ret (w1, entity) (some err)
    | ((model1, none), w1) => .ret (w1, env.model.ToEntity model1) none

/-- `Delete`: by model instance, no extra conditions. -/
def Delete (env : Env W M E V) (r : GormRepository M V) (w : W) (ctx : Context) (entity : E) :
    Outcome W (Option Error) :=
  match env.model.FromEntity env.zeroM entity with
  | none => .panic w
  | some model =>
    match env.Delete w (r.db.WithContext ctx) model [] with
    | (some err, w1) => .ret w1 (some err)
    | (none, w1) => .ret w1 none

/-- `DeleteById`: `Delete(&start, &id)` on the zero model with the identifier as
the only condition. -/
def DeleteById (env : Env W M E V) (r : GormRepository M V) (w : W) (ctx : Context) (id : V) :
    Outcome W (Option Error) :=
  match env.Delete w (r.db.WithContext ctx) env.zeroM [id] with
  | (some err, w1) => .ret w1 (some err)
  | (none, w1) => .ret w1 none

/-- `Update`.  The state is the world and the caller's entity variable. -/
def Update (env : Env W M E V) (r : GormRepository M V) (w : W) (ctx : Context) (entity : E) :
    Outcome (W × E) (Option Error) :=
  match env.model.FromEntity env.zeroM entity with
  | none => .panic (w, entity)
  | some model =>
    match env.Save w (r.db.WithContext ctx) model with
    | ((_, some err), w1) => .ret (w1, entity) (some err)
    | ((model1, none), w1) => .ret (w1, env.model.ToEntity model1) none

/-- `FindByID`: `First(&model, id)` on the zero model. -/
def FindByID (env : Env W M E V) (r : GormRepository M V) (w : W) (ctx : Context) (id : V) :
    Outcome W (E × Option Error) :=
  match env.First w (r.db.WithContext ctx) env.zeroM [id] with
  | ((_, some err), w1) => .ret w1 (env.zeroE, some err)
  | ((model, none), w1) => .ret w1 (env.model.ToEntity model, none)

/-! ## Filtered queries (lines 110-158) -/

/-- The loop of `getPreWarmDbForSelect`: one `Where` call per specification. -/
def applySpecifications (dbPrewarm : DB M V) : List (Specification V) → DB M V
  | [] => dbPrewarm
  | s :: rest => applySpecifications (dbPrewarm.Where s.GetQuery s.GetValues) rest

/-- `getPreWarmDbForSelect`. -/
def getPreWarmDbForSelect (r : GormRepository M V) (ctx : Context)
    (specification : List (Specification V)) : DB M V :=
  applySpecifications (r.db.WithContext ctx) specification

/-- `Count`: the filtered query, `Model(new(M))`, then the driver's `Count`. -/
def Count (env : Env W M E V) (r : GormRepository M V) (w : W) (ctx : Context)
    (specifications : List (Specification V)) : Outcome (GormRepository M V × W) (Int × Option Error) :=
  match env.Count w ((getPreWarmDbForSelect r ctx specifications).Model env.zeroM) with
  | ((i, err), w1) => .ret (r, w1) (i, err)

/-- The preload loop of `FindWithLimit`: one `Preload` call per cached name. -/
def applyPreloads (dbPrewarm : DB M V) : List String → DB M V
  | [] => dbPrewarm
  | association :: rest => applyPreloads (dbPrewarm.Preload association) rest

/-- Lines 132-140 of `FindWithLimit`: when preload is on, resolve the
associations unless `preloadAssocationsOk` says they are resolved, then chain
the `Preload` calls.  No line of the source assigns `preloadAssocationsOk`. -/
def preloadStage (env : Env W M E V) (r : GormRepository M V) (w : W) (dbPrewarm : DB M V) :
    Outcome (GormRepository M V × W) (DB M V) :=
  if r.preloadAssocations then
    if !r.preloadAssocationsOk then
      match setAssociations env r w env.zeroM with
      | .panic st => .panic st
      | .ret (r1, w1) _ => .ret (r1, w1) (applyPreloads dbPrewarm r1.associations)
    else .ret (r, w) (applyPreloads dbPrewarm r.associations)
  else .ret (r, w) dbPrewarm

/-- The result loop of `FindWithLimit`: append `row.ToEntity()` for each row. -/
def toEntities (env : Env W M E V) (result : List E) : List M → List E
  | [] => result
  | row :: rest => toEntities env (result ++ [env.model.ToEntity row]) rest

/-- `FindWithLimit`.  The returned slice is `none` for Go's nil slice and
`some l` for a non-nil slice (`make` never returns nil). -/
def FindWithLimit (env : Env W M E V) (r : GormRepository M V) (w : W) (ctx : Context)
    (limit : Int) (offset : Int) (specifications : List (Specification V)) :
    Outcome (GormRepository M V × W) (Option (List E) × Option Error) :=
  match preloadStage env r w (getPreWarmDbForSelect r ctx specifications) with
  | .panic st => .panic st
  | .ret (r1, w1) dbPrewarm =>
    match env.Find w1 ((dbPrewarm.Limit limit).Offset offset) with
    | ((_, some err), w2) => .ret (r1, w2) (none, some err)
    | ((models, none), w2) => .ret (r1, w2) (some (toEntities env [] models), none)

/-- `Find`. -/
def Find (env : Env W M E V) (r : GormRepository M V) (w : W) (ctx : Context)
    (specifications : List (Specification V)) :
    Outcome (GormRepository M V × W) (Option (List E) × Option Error) :=
  FindWithLimit env r w ctx (-1) (-1) specifications

/-- `FindAll`. -/
def FindAll (env : Env W M E V) (r : GormRepository M V) (w : W) (ctx : Context) :
    Outcome (GormRepository M V × W) (Option (List E) × Option Error) :=
  FindWithLimit env r w ctx (-1) (-1) []

/-! ## Sequences of public operations -/

/-- One call of a public method of the repository, with its arguments. -/
inductive Op (E V : Type) where
  | EnablePreloadAssociations
  | DisablePreloadAssociations
  | SetPreloadAssociations (association : Bool)
  | Insert (ctx : Context) (entity : E)
  | Delete (ctx : Context) (entity : E)
  | DeleteById (ctx : Context) (id : V)
  | Update (ctx : Context) (entity : E)
  | FindByID (ctx : Context) (id : V)
  | Find (ctx : Context) (specifications : List (Specification V))
  | Count (ctx : Context) (specifications : List (Specification V))
  | FindWithLimit (ctx : Context) (limit : Int) (offset : Int)
      (specifications : List (Specification V))
  | FindAll (ctx : Context)

/-- Effect of one public call on the repository and the world.  Results and the
caller's entity variable are dropped; a panicking call leaves the state it had
reached (the caller may recover and go on using the repository). -/
def step (env : Env W M E V) (st : GormRepository M V × W) : Op E V → GormRepository M V × W
  | .EnablePreloadAssociations => (EnablePreloadAssociations st.1, st.2)
  | .DisablePreloadAssociations => (DisablePreloadAssociations st.1, st.2)
  | .SetPreloadAssociations association => (SetPreloadAssociations st.1 association, st.2)
  | .Insert ctx entity => (st.1, (Insert env st.1 st.2 ctx entity).state.1)
  | .Delete ctx entity => (st.1, (Delete env st.1 st.2 ctx entity).state)
  | .DeleteById ctx id => (st.1, (DeleteById env st.1 st.2 ctx id).state)
  | .Update ctx entity => (st.1, (Update env st.1 st.2 ctx entity).state.1)
  | .FindByID ctx id => (st.1, (FindByID env st.1 st.2 ctx id).state)
  | .Find ctx specifications => (Find env st.1 st.2 ctx specifications).state
  | .Count ctx specifications => (Count env st.1 st.2 ctx specifications).state
  | .FindWithLimit ctx limit offset specifications =>
    (FindWithLimit env st.1 st.2 ctx limit offset specifications).state
  | .FindAll ctx => (FindAll env st.1 st.2 ctx).state

/-- Run a sequence of public calls, first call first. -/
def run (env : Env W M E V) (st : GormRepository M V × W) (ops : List (Op E V)) :
    GormRepository M V × W :=
  ops.foldl (step env) st

/-- The calls that execute a list query: `Find`, `FindAll` or `FindWithLimit`. -/
def Op.isListQuery : Op E V → Bool
  | .Find _ _ => true
  | .FindWithLimit _ _ _ _ => true
  | .FindAll _ => true
  | _ => false

/-! ## Reading a query term -/

/-- The conditions of a query, in the order the `Where` calls were made. -/
def DB.conds : DB M V → List (String × List V)
  | .handle _ => []
  | .WithContext db _ => db.conds
  | .Where db query values => db.conds ++ [(query, values)]
  | .Preload db _ => db.conds
  | .Limit db _ => db.conds
  | .Offset db _ => db.conds
  | .Model db _ => db.conds

/-- The eager-load directives of a query, in call order. -/
def DB.preloads : DB M V → List String
  | .handle _ => []
  | .WithContext db _ => db.preloads
  | .Where db _ _ => db.preloads
  | .Preload db association => db.preloads ++ [association]
  | .Limit db _ => db.preloads
  | .Offset db _ => db.preloads
  | .Model db _ => db.preloads

/-- The limit in force: the argument of the last `Limit` call, if any. -/
def DB.limit? : DB M V → Option Int
  | .handle _ => none
  | .WithContext db _ => db.limit?
  | .Where db _ _ => db.limit?
  | .Preload db _ => db.limit?
  | .Limit _ limit => some limit
  | .Offset db _ => db.limit?
  | .Model db _ => db.limit?

/-- The offset in force: the argument of the last `Offset` call, if any. -/
def DB.offset? : DB M V → Option Int
  | .handle _ => none
  | .WithContext db _ => db.offset?
  | .Where db _ _ => db.offset?
  | .Preload db _ => db.offset?
  | .Limit db _ => db.offset?
  | .Offset _ offset => some offset
  | .Model db _ => db.offset?

/-- The `Where` calls at the top of a query term, outermost last, down to the
first call that is not a `Where`. -/
def DB.addedWheres : DB M V → List (String × List V)
  | .Where db query values => db.addedWheres ++ [(query, values)]
  | _ => []

/-- The query term below its top-level `Where` calls. -/
def DB.belowWheres : DB M V → DB M V
  | .Where db _ _ => db.belowWheres
  | db => db

/-! ## A table backend

The driver is external to the repository.  To run the repository on concrete
data, and to state properties that relate two driver calls, the following
backend keeps one table of rows and reads a query term the way the driver's
documentation describes: all conditions are AND-ed, a negative limit or a
non-positive offset means "none", eager loading completes rows without changing
which rows are returned, and deleting no row is not an error. -/

/-- What the table backend needs to know about a model type. -/
structure TableSem (M V : Type) where
  /-- Whether a row satisfies a condition with its bound values. -/
  holds : String → List V → M → Bool
  /-- Eager-load one association into a row. -/
  load : String → M → M
  /-- Whether a row has the given primary key. -/
  hasKey : M → V → Bool
  /-- Whether two model values denote the same record. -/
  same : M → M → Bool
  /-- Fill the backend-generated fields of a new row. -/
  assign : List M → M → M
  /-- Statement-level failure (cancelled context, malformed statement). -/
  fault : DB M V → Option Error
  /-- What schema introspection returns for a model. -/
  parse : M → DB M V → Option schema.Schema × Option Error

/-- World state of the table backend; `parseCalls` counts the invocations of
the schema capability. -/
structure Store (M : Type) where
  rows : List M
  parseCalls : Nat
deriving DecidableEq, Repr

/-- Rows that satisfy every condition of the query. -/
def TableSem.matching (sem : TableSem M V) (q : DB M V) (rows : List M) : List M :=
  rows.filter (fun m => q.conds.all (fun c => sem.holds c.1 c.2 m))

/-- Apply the offset and limit in force. -/
def TableSem.bounded (q : DB M V) (rows : List M) : List M :=
  let skipped := match q.offset? with
    | some n => if 0 < n then rows.drop n.toNat else rows
    | none => rows
  match q.limit? with
  | some n => if 0 ≤ n then skipped.take n.toNat else skipped
  | none => skipped

/-- Eager-load every requested association into a row. -/
def TableSem.loadAll (sem : TableSem M V) (names : List String) (m : M) : M :=
  names.foldl (fun acc name => sem.load name acc) m

/-- The environment in which the repository runs against the table backend. -/
def tableEnv (sem : TableSem M V) (zeroM : M) (zeroE : E) (model : GormModel M E) :
    Env (Store M) M E V where
  zeroM := zeroM
  zeroE := zeroE
  model := model
  Parse := fun w m db => (sem.parse m db, { w with parseCalls := w.parseCalls + 1 })
  Create := fun w q m =>
    match sem.fault q with
    | some err => ((m, some err), w)
    | none => ((sem.assign w.rows m, none), { w with rows := w.rows ++ [sem.assign w.rows m] })
  Save := fun w q m =>
    match sem.fault q with
    | some err => ((m, some err), w)
    | none =>
      if w.rows.any (fun x => sem.same x m) then
        ((m, none), { w with rows := w.rows.map (fun x => if sem.same x m then m else x) })
      else ((sem.assign w.rows m, none), { w with rows := w.rows ++ [sem.assign w.rows m] })
  Delete := fun w q m ids =>
    match sem.fault q with
    | some err => (some err, w)
    | none =>
      (none, { w with rows := w.rows.filter (fun x =>
        !((q.conds.all (fun c => sem.holds c.1 c.2 x)) &&
          (if ids.isEmpty then sem.same x m else ids.any (fun id => sem.hasKey x id)))) })
  First := fun w q m ids =>
    match sem.fault q with
    | some err => ((m, some err), w)
    | none =>
      match (sem.matching q w.rows).find? (fun x => ids.all (fun id => sem.hasKey x id)) with
      | some x => ((sem.loadAll q.preloads x, none), w)
      | none => ((m, some ErrRecordNotFound), w)
  Find := fun w q =>
    match sem.fault q with
    | some err => (([], some err), w)
    | none =>
      (((TableSem.bounded q (sem.matching q w.rows)).map (sem.loadAll q.preloads), none), w)
  Count := fun w q =>
    match sem.fault q with
    | some err => ((0, some err), w)
    | none => (((sem.matching q w.rows).length, none), w)

end Repository

/-! ## A concrete model and entity -/

/-- Example entity. -/
structure User where
  ID : Nat
  Name : String
deriving DecidableEq, Repr

/-- Example model, the stored shape of `User`. -/
structure UserModel where
  ID : Nat
  Name : String
deriving DecidableEq, Repr

/-- The mapper of `UserModel`. -/
def userMapper : GormModel UserModel User where
  ToEntity := fun m => { ID := m.ID, Name := m.Name }
  FromEntity := fun _ e => some { ID := e.ID, Name := e.Name }

/-- Table semantics of `UserModel`: conditions on the identifier, generated
identifiers, one many-to-many relationship `Tags`. -/
def userSem : TableSem UserModel Nat where
  holds := fun query values m =>
    match values with
    | [n] => if query = "id >= ?" then decide (n ≤ m.ID) else if query = "id = ?" then m.ID == n else true
    | _ => true
  load := fun _ m => m
  hasKey := fun m id => m.ID == id
  same := fun x m => x.ID == m.ID
  assign := fun rows m => { m with ID := rows.length + 1 }
  fault := fun _ => none
  parse := fun _ _ => (some ⟨⟨[⟨"Tags"⟩]⟩⟩, none)

/-- The repository environment for users on the table backend. -/
def userEnv : Env (Store UserModel) UserModel User Nat :=
  tableEnv userSem ⟨0, ""⟩ ⟨0, ""⟩ userMapper

/-- The same environment, except that schema introspection fails the way the
schema package fails on a model it cannot parse: a nil schema and an error. -/
def brokenSchemaEnv : Env (Store UserModel) UserModel User Nat :=
  tableEnv { userSem with parse := fun _ _ => (none, some ⟨"unsupported data type"⟩) }
    ⟨0, ""⟩ ⟨0, ""⟩ userMapper

/-- A backend whose `Create` and `Save` always fail with the given error. -/
def failingWriteEnv (err : Error) : Env (Store UserModel) UserModel User Nat :=
  { userEnv with
    Create := fun w _ m => (({ m with ID := 99 }, some err), w)
    Save := fun w _ m => (({ m with ID := 99 }, some err), w) }

/-- A table with two users. -/
def twoUsers : Store UserModel := { rows := [⟨1, "a"⟩, ⟨2, "b"⟩], parseCalls := 0 }

/-- The user environment on a backend where every statement fails (for
instance because the context is already cancelled). -/
def cancelledEnv : Env (Store UserModel) UserModel User Nat :=
  tableEnv { userSem with fault := fun _ => some ⟨"context canceled"⟩ } ⟨0, ""⟩ ⟨0, ""⟩ userMapper

/-- The repository used in the concrete runs: a fresh repository on handle 0
with preload switched on. -/
def preloadingRepo : GormRepository UserModel Nat :=
  EnablePreloadAssociations (NewRepository (DB.handle 0))

/-! ## Loops as list functions -/

section Lemmas

variable {W M E V : Type}

theorem applySpecifications_eq_foldl (db : DB M V) (specs : List (Specification V)) :
    applySpecifications db specs
      = specs.foldl (fun acc s => acc.Where s.GetQuery s.GetValues) db := by
  induction specs generalizing db with
  | nil => rfl
  | cons s rest ih => simp [applySpecifications, ih]

theorem addedWheres_applySpecifications (db : DB M V) (specs : List (Specification V)) :
    (applySpecifications db specs).addedWheres
      = db.addedWheres ++ specs.map (fun s => (s.GetQuery, s.GetValues)) := by
  induction specs generalizing db with
  | nil => simp [applySpecifications]
  | cons s rest ih => simp [applySpecifications, ih, DB.addedWheres]

theorem belowWheres_applySpecifications (db : DB M V) (specs : List (Specification V)) :
    (applySpecifications db specs).belowWheres = db.belowWheres := by
  induction specs generalizing db with
  | nil => rfl
  | cons s rest ih => simp [applySpecifications, ih, DB.belowWheres]

theorem conds_applySpecifications (db : DB M V) (specs : List (Specification V)) :
    (applySpecifications db specs).conds
      = db.conds ++ specs.map (fun s => (s.GetQuery, s.GetValues)) := by
  induction specs generalizing db with
  | nil => simp [applySpecifications]
  | cons s rest ih => simp [applySpecifications, ih, DB.conds]

theorem toEntities_eq (env : Env W M E V) (result : List E) (rows : List M) :
    toEntities env result rows = result ++ rows.map env.model.ToEntity := by
  induction rows generalizing result with
  | nil => simp [toEntities]
  | cons row rest ih => simp [toEntities, ih]

theorem appendNames_eq (associations : List String) (rels : List schema.Relationship) :
    appendNames associations rels = associations ++ rels.map (fun i => i.Name) := by
  induction rels generalizing associations with
  | nil => simp [appendNames]
  | cons i rest ih => simp [appendNames, ih]

theorem conds_applyPreloads (q : DB M V) (names : List String) :
    (applyPreloads q names).conds = q.conds := by
  induction names generalizing q with
  | nil => rfl
  | cons a rest ih => simp [applyPreloads, ih, DB.conds]

theorem preloads_applyPreloads (q : DB M V) (names : List String) :
    (applyPreloads q names).preloads = q.preloads ++ names := by
  induction names generalizing q with
  | nil => simp [applyPreloads]
  | cons a rest ih => simp [applyPreloads, ih, DB.preloads]

theorem limit_offset_applied (q : DB M V) (limit offset : Int) :
    ((q.Limit limit).Offset offset).limit? = some limit ∧
    ((q.Limit limit).Offset offset).offset? = some offset ∧
    ((q.Limit limit).Offset offset).conds = q.conds ∧
    ((q.Limit limit).Offset offset).preloads = q.preloads :=
  ⟨rfl, rfl, rfl, rfl⟩

theorem bounded_unbounded (q : DB M V) (rows : List M) :
    TableSem.bounded ((q.Limit (-1)).Offset (-1)) rows = rows := by
  simp [TableSem.bounded, DB.limit?, DB.offset?]

theorem matching_congr (sem : TableSem M V) (q q2 : DB M V) (rows : List M)
    (h : q.conds = q2.conds) : sem.matching q rows = sem.matching q2 rows := by
  simp [TableSem.matching, h]

/-- What `setAssociations` leaves: the repository with the parsed names
appended, or the untouched repository after a panic; the world is the one
`Parse` returned. -/
theorem setAssociations_state (env : Env W M E V) (r : GormRepository M V) (w : W) (model : M) :
    (setAssociations env r w model).state.2 = (env.Parse w model r.db).2 ∧
    (setAssociations env r w model).state.1.db = r.db ∧
    (setAssociations env r w model).state.1.preloadAssocations = r.preloadAssocations ∧
    (setAssociations env r w model).state.1.preloadAssocationsOk = r.preloadAssocationsOk := by
  unfold setAssociations
  rcases h : env.Parse w model r.db with ⟨⟨sch, err⟩, w1⟩
  cases sch <;> simp [Outcome.state]

theorem preloadStage_state (env : Env W M E V) (r : GormRepository M V) (w : W) (q : DB M V) :
    ((preloadStage env r w q).state.2 = w ∨
      (preloadStage env r w q).state.2 = (env.Parse w env.zeroM r.db).2) ∧
    (preloadStage env r w q).state.1.db = r.db ∧
    (preloadStage env r w q).state.1.preloadAssocations = r.preloadAssocations ∧
    (preloadStage env r w q).state.1.preloadAssocationsOk = r.preloadAssocationsOk := by
  have hs := setAssociations_state env r w env.zeroM
  unfold preloadStage
  cases hp : r.preloadAssocations with
  | false => simp [Outcome.state, hp]
  | true =>
    cases hok : r.preloadAssocationsOk with
    | true => simp [Outcome.state, hp, hok]
    | false =>
      simp only [Bool.not_false, if_true]
      cases hsa : setAssociations env r w env.zeroM with
      | panic st =>
        rw [hsa] at hs
        simp only [Outcome.state] at hs
        simp [Outcome.state, hs, hp, hok]
      | ret st u =>
        rw [hsa] at hs
        obtain ⟨r1, w1⟩ := st
        simp only [Outcome.state] at hs ⊢
        simp [hs, hp, hok]

theorem preloadStage_query (env : Env W M E V) (r : GormRepository M V) (w : W) (q : DB M V)
    (st : GormRepository M V × W) (q1 : DB M V)
    (h : preloadStage env r w q = .ret st q1) :
    ∃ names : List String, q1 = applyPreloads q names := by
  unfold preloadStage at h
  cases hp : r.preloadAssocations with
  | false =>
    simp [hp] at h
    exact ⟨[], by simp [applyPreloads, h.2]⟩
  | true =>
    cases hok : r.preloadAssocationsOk with
    | true =>
      simp [hp, hok] at h
      exact ⟨r.associations, h.2.symm⟩
    | false =>
      simp only [hp, hok, Bool.not_false, if_true] at h
      cases hsa : setAssociations env r w env.zeroM with
      | panic st2 => simp [hsa] at h
      | ret st2 u =>
        obtain ⟨r1, w1⟩ := st2
        simp [hsa] at h
        exact ⟨r1.associations, h.2.symm⟩

theorem FindWithLimit_state (env : Env W M E V) (r : GormRepository M V) (w : W) (ctx : Context)
    (limit offset : Int) (specs : List (Specification V)) :
    (FindWithLimit env r w ctx limit offset specs).state.1.db = r.db ∧
    (FindWithLimit env r w ctx limit offset specs).state.1.preloadAssocations
      = r.preloadAssocations ∧
    (FindWithLimit env r w ctx limit offset specs).state.1.preloadAssocationsOk
      = r.preloadAssocationsOk := by
  have hs := (preloadStage_state env r w (getPreWarmDbForSelect r ctx specs)).2
  unfold FindWithLimit
  cases hst : preloadStage env r w (getPreWarmDbForSelect r ctx specs) with
  | panic st =>
    rw [hst] at hs
    simpa [Outcome.state] using hs
  | ret st q1 =>
    rw [hst] at hs
    obtain ⟨r1, w1⟩ := st
    simp only [Outcome.state] at hs
    rcases hf : env.Find w1 ((q1.Limit limit).Offset offset) with ⟨⟨models, err⟩, w2⟩
    cases err <;> simpa [hf, Outcome.state] using hs

theorem step_keeps_flag (env : Env W M E V) (st : GormRepository M V × W) (op : Op E V)
    (h : st.1.preloadAssocations = true) : (step env st op).1.preloadAssocations = true := by
  cases op with
  | EnablePreloadAssociations => rfl
  | DisablePreloadAssociations => rfl
  | SetPreloadAssociations b => cases b <;> rfl
  | Insert ctx e => exact h
  | Delete ctx e => exact h
  | DeleteById ctx id => exact h
  | Update ctx e => exact h
  | FindByID ctx id => exact h
  | Find ctx specs =>
    simp only [step, Find]
    rw [(FindWithLimit_state env st.1 st.2 ctx (-1) (-1) specs).2.1]
    exact h
  | Count ctx specs =>
    simp only [step, Count]
    exact h
  | FindWithLimit ctx limit offset specs =>
    simp only [step]
    rw [(FindWithLimit_state env st.1 st.2 ctx limit offset specs).2.1]
    exact h
  | FindAll ctx =>
    simp only [step, FindAll]
    rw [(FindWithLimit_state env st.1 st.2 ctx (-1) (-1) []).2.1]
    exact h

theorem run_keeps_flag (env : Env W M E V) (ops : List (Op E V)) (st : GormRepository M V × W)
    (h : st.1.preloadAssocations = true) : (run env st ops).1.preloadAssocations = true := by
  induction ops generalizing st with
  | nil => exact h
  | cons op rest ih =>
    simp only [run, List.foldl_cons]
    exact ih _ (step_keeps_flag env st op h)

theorem run_append (env : Env W M E V) (ops1 ops2 : List (Op E V)) (st : GormRepository M V × W) :
    run env st (ops1 ++ ops2) = run env (run env st ops1) ops2 := by
  simp [run, List.foldl_append]

/-- With preload on and the resolved marker off, `FindWithLimit` calls the
schema capability and then depends only on the schema pointer it got back: a
nil schema panics, a non-nil schema has its names appended, and the error
returned next to it plays no part. -/
theorem FindWithLimit_after_parse (env : Env W M E V) (r : GormRepository M V) (w : W)
    (ctx : Context) (limit offset : Int) (specs : List (Specification V))
    (hp : r.preloadAssocations = true) (hok : r.preloadAssocationsOk = false) :
    ((env.Parse w env.zeroM r.db).1.1 = none →
      FindWithLimit env r w ctx limit offset specs
        = .panic (r, (env.Parse w env.zeroM r.db).2)) ∧
    (∀ sch : schema.Schema, (env.Parse w env.zeroM r.db).1.1 = some sch →
      (FindWithLimit env r w ctx limit offset specs).value? ≠ none ∧
      (FindWithLimit env r w ctx limit offset specs).state.1.associations
        = r.associations ++ sch.Relationships.Many2Many.map (fun i => i.Name)) := by
  unfold FindWithLimit preloadStage setAssociations
  rcases hparse : env.Parse w env.zeroM r.db with ⟨⟨sch, err⟩, w1⟩
  refine ⟨?_, ?_⟩
  · intro h
    simp only at h
    subst h
    simp [hp, hok]
  · intro sch2 h
    simp only at h
    subst h
    simp only [hp, hok, Bool.not_false, if_true]
    rcases hf : env.Find w1
      (((applyPreloads (getPreWarmDbForSelect r ctx specs)
        (appendNames r.associations sch2.Relationships.Many2Many)).Limit limit).Offset offset)
      with ⟨⟨models, e⟩, w2⟩
    cases e <;> simp [Outcome.value?, Outcome.state, appendNames_eq]

/-- On the table backend, a list query on a repository with preload on and the
resolved marker off invokes the schema capability once more. -/
theorem parseCalls_FindWithLimit (sem : TableSem M V) (zeroM : M) (zeroE : E)
    (model : GormModel M E) (r : GormRepository M V) (w : Store M) (ctx : Context)
    (limit offset : Int) (specs : List (Specification V))
    (hp : r.preloadAssocations = true) (hok : r.preloadAssocationsOk = false) :
    (FindWithLimit (tableEnv sem zeroM zeroE model) r w ctx limit offset specs).state.2.parseCalls
      = w.parseCalls + 1 := by
  have h := FindWithLimit_after_parse (tableEnv sem zeroM zeroE model) r w ctx limit offset specs
    hp hok
  cases hs : (sem.parse zeroM r.db).1 with
  | none =>
    have h1 := h.1 (by simpa [tableEnv] using hs)
    rw [h1]
    rfl
  | some sch =>
    unfold FindWithLimit preloadStage setAssociations
    simp only [hp, hok, Bool.not_false, if_true, tableEnv]
    rcases hparse : sem.parse zeroM r.db with ⟨sch2, err⟩
    rw [hparse] at hs
    simp only at hs
    subst hs
    simp only
    cases hf : sem.fault
      (((applyPreloads (getPreWarmDbForSelect r ctx specs)
        (appendNames r.associations sch.Relationships.Many2Many)).Limit limit).Offset offset) with
    | none => simp [Outcome.state]
    | some e => simp [Outcome.state]

/-- On the table backend, `n` list queries in a row on a repository with
preload on invoke the schema capability `n` times. -/
theorem parseCalls_run_list_queries (sem : TableSem M V) (zeroM : M) (zeroE : E)
    (model : GormModel M E) (ops : List (Op E V)) (st : GormRepository M V × Store M)
    (hops : ∀ op ∈ ops, op.isListQuery = true)
    (hp : st.1.preloadAssocations = true) (hok : st.1.preloadAssocationsOk = false) :
    (run (tableEnv sem zeroM zeroE model) st ops).2.parseCalls = st.2.parseCalls + ops.length := by
  induction ops generalizing st with
  | nil => rfl
  | cons op rest ih =>
    have hrest : ∀ o ∈ rest, o.isListQuery = true := fun o ho => hops o (List.mem_cons_of_mem _ ho)
    have hop : op.isListQuery = true := hops op (List.mem_cons_self _ _)
    have key : ∀ (ctx : Context) (limit offset : Int) (specs : List (Specification V)),
        (run (tableEnv sem zeroM zeroE model)
          (FindWithLimit (tableEnv sem zeroM zeroE model) st.1 st.2 ctx limit offset specs).state
          rest).2.parseCalls = st.2.parseCalls + (rest.length + 1) := by
      intro ctx limit offset specs
      have hst := FindWithLimit_state (tableEnv sem zeroM zeroE model) st.1 st.2 ctx limit offset
        specs
      rw [ih _ hrest (by rw [hst.2.1]; exact hp) (by rw [hst.2.2]; exact hok),
        parseCalls_FindWithLimit sem zeroM zeroE model st.1 st.2 ctx limit offset specs hp hok]
      omega
    cases op with
    | Find ctx specs => exact key ctx (-1) (-1) specs
    | FindWithLimit ctx limit offset specs => exact key ctx limit offset specs
    | FindAll ctx => exact key ctx (-1) (-1) []
    | EnablePreloadAssociations => simp [Op.isListQuery] at hop
    | DisablePreloadAssociations => simp [Op.isListQuery] at hop
    | SetPreloadAssociations b => simp [Op.isListQuery] at hop
    | Insert ctx e => simp [Op.isListQuery] at hop
    | Delete ctx e => simp [Op.isListQuery] at hop
    | DeleteById ctx id => simp [Op.isListQuery] at hop
    | Update ctx e => simp [Op.isListQuery] at hop
    | FindByID ctx id => simp [Op.isListQuery] at hop
    | Count ctx specs => simp [Op.isListQuery] at hop

end Lemmas

/-! ## Configuration -/

section Claims

variable {W M E V : Type}

/-- C2: `DisablePreloadAssociations` does not clear the preload flag.  After the
call the flag is true whatever it was before, the handle, the resolved marker
and the cached list are unchanged, and the repository handed back is the
receiver in that state, the same one `EnablePreloadAssociations` hands back. -/
theorem DisablePreloadAssociations_sets_flag (r : GormRepository M V) :
    (DisablePreloadAssociations r).preloadAssocations = true ∧
    (DisablePreloadAssociations r).db = r.db ∧
    (DisablePreloadAssociations r).preloadAssocationsOk = r.preloadAssocationsOk ∧
    (DisablePreloadAssociations r).associations = r.associations ∧
    DisablePreloadAssociations r = EnablePreloadAssociations r ∧
    DisablePreloadAssociations r
      = { db := r.db, preloadAssocationsOk := r.preloadAssocationsOk,
          preloadAssocations := true, associations := r.associations } :=
  ⟨rfl, rfl, rfl, rfl, rfl, rfl⟩

/-! ## Specification folding -/

/-- C4: for specifications `s_1..s_n`, `getPreWarmDbForSelect` returns the
context-scoped base query with exactly `n` `Where` calls on top of it, the i-th
being `Where(s_i.GetQuery(), s_i.GetValues()...)` in the order passed: the
result is the left fold of `Where` over the list, and for the empty list it is
the base query itself. -/
theorem getPreWarmDbForSelect_adds_wheres_in_order (r : GormRepository M V) (ctx : Context)
    (specification : List (Specification V)) :
    (getPreWarmDbForSelect r ctx specification).belowWheres = r.db.WithContext ctx ∧
    (getPreWarmDbForSelect r ctx specification).addedWheres
      = specification.map (fun s => (s.GetQuery, s.GetValues)) ∧
    (getPreWarmDbForSelect r ctx specification).addedWheres.length = specification.length ∧
    getPreWarmDbForSelect r ctx specification
      = specification.foldl (fun acc s => acc.Where s.GetQuery s.GetValues)
          (r.db.WithContext ctx) ∧
    getPreWarmDbForSelect r ctx ([] : List (Specification V)) = r.db.WithContext ctx := by
  refine ⟨?_, ?_, ?_, ?_, rfl⟩
  · simp [getPreWarmDbForSelect, belowWheres_applySpecifications, DB.belowWheres]
  · simp [getPreWarmDbForSelect, addedWheres_applySpecifications, DB.addedWheres]
  · simp [getPreWarmDbForSelect, addedWheres_applySpecifications, DB.addedWheres]
  · simp [getPreWarmDbForSelect, applySpecifications_eq_foldl]

/-! ## Writes -/

/-- C5: `Insert` and `Update` alike.  Once the entity is mapped to a model, if
the backend call (`Create`, respectively `Save`) reports `err` the operation
returns exactly `err` and the caller's entity variable still holds the entity
it held; if the backend reports no error the operation returns nil and the
variable holds `ToEntity` of the model as the backend left it. -/
theorem Insert_Update_write_back (env : Env W M E V) (r : GormRepository M V) (w : W)
    (ctx : Context) (entity : E) (model : M)
    (hmap : env.model.FromEntity env.zeroM entity = some model) :
    (∀ (left : M) (err : Error) (w1 : W),
        env.Create w (r.db.WithContext ctx) model = ((left, some err), w1) →
        Insert env r w ctx entity = .ret (w1, entity) (some err)) ∧
    (∀ (left : M) (w1 : W),
        env.Create w (r.db.WithContext ctx) model = ((left, none), w1) →
        Insert env r w ctx entity = .ret (w1, env.model.ToEntity left) none) ∧
    (∀ (left : M) (err : Error) (w1 : W),
        env.Save w (r.db.WithContext ctx) model = ((left, some err), w1) →
        Update env r w ctx entity = .ret (w1, entity) (some err)) ∧
    (∀ (left : M) (w1 : W),
        env.Save w (r.db.WithContext ctx) model = ((left, none), w1) →
        Update env r w ctx entity = .ret (w1, env.model.ToEntity left) none) := by
  refine ⟨?_, ?_, ?_, ?_⟩
  · intro left err w1 h
    simp [Insert, hmap, h]
  · intro left w1 h
    simp [Insert, hmap, h]
  · intro left err w1 h
    simp [Update, hmap, h]
  · intro left w1 h
    simp [Update, hmap, h]

/-- Witness for C5: on the table backend an insert captures the generated
identifier and an update writes the saved row back; on a backend whose writes
fail, both return the error and leave the entity as it was. -/
theorem Insert_Update_write_back_witness :
    Insert userEnv preloadingRepo twoUsers 0 ⟨0, "c"⟩
      = .ret ({ rows := [⟨1, "a"⟩, ⟨2, "b"⟩, ⟨3, "c"⟩], parseCalls := 0 }, ⟨3, "c"⟩) none ∧
    Update userEnv preloadingRepo twoUsers 0 ⟨2, "z"⟩
      = .ret ({ rows := [⟨1, "a"⟩, ⟨2, "z"⟩], parseCalls := 0 }, ⟨2, "z"⟩) none ∧
    Insert (failingWriteEnv ⟨"disk full"⟩) preloadingRepo twoUsers 0 ⟨0, "c"⟩
      = .ret (twoUsers, ⟨0, "c"⟩) (some ⟨"disk full"⟩) ∧
    Update (failingWriteEnv ⟨"disk full"⟩) preloadingRepo twoUsers 0 ⟨2, "z"⟩
      = .ret (twoUsers, ⟨2, "z"⟩) (some ⟨"disk full"⟩) :=
  ⟨(Insert_Update_write_back userEnv preloadingRepo twoUsers 0 ⟨0, "c"⟩ ⟨0, "c"⟩ rfl).2.1
      ⟨3, "c"⟩ _ rfl,
   (Insert_Update_write_back userEnv preloadingRepo twoUsers 0 ⟨2, "z"⟩ ⟨2, "z"⟩ rfl).2.2.2
      ⟨2, "z"⟩ _ rfl,
   (Insert_Update_write_back (failingWriteEnv ⟨"disk full"⟩) preloadingRepo twoUsers 0
      ⟨0, "c"⟩ ⟨0, "c"⟩ rfl).1 ⟨99, "c"⟩ _ _ rfl,
   (Insert_Update_write_back (failingWriteEnv ⟨"disk full"⟩) preloadingRepo twoUsers 0
      ⟨2, "z"⟩ ⟨2, "z"⟩ rfl).2.2.1 ⟨99, "z"⟩ _ _ rfl⟩

/-! ## Reads -/

/-- C6: for every limit, offset and specification list, once the query is
built: when the backend `Find` succeeds with records `m_1..m_k`, `FindWithLimit`
returns a nil error and exactly `m_1.ToEntity(), ..., m_k.ToEntity()`, same
length and order, a non-nil empty slice when `k = 0`; when the backend fails
with `err` it returns a nil slice and exactly `err`. -/
theorem FindWithLimit_maps_rows_in_order (env : Env W M E V) (r : GormRepository M V) (w : W)
    (ctx : Context) (limit offset : Int) (specifications : List (Specification V))
    (r1 : GormRepository M V) (w1 : W) (q : DB M V)
    (hquery : preloadStage env r w (getPreWarmDbForSelect r ctx specifications)
      = .ret (r1, w1) q) :
    (∀ (models : List M) (w2 : W),
        env.Find w1 ((q.Limit limit).Offset offset) = ((models, none), w2) →
        FindWithLimit env r w ctx limit offset specifications
          = .ret (r1, w2) (some (models.map env.model.ToEntity), none) ∧
        (models.map env.model.ToEntity).length = models.length) ∧
    (∀ (w2 : W),
        env.Find w1 ((q.Limit limit).Offset offset) = (([], none), w2) →
        FindWithLimit env r w ctx limit offset specifications = .ret (r1, w2) (some [], none)) ∧
    (∀ (models : List M) (err : Error) (w2 : W),
        env.Find w1 ((q.Limit limit).Offset offset) = ((models, some err), w2) →
        FindWithLimit env r w ctx limit offset specifications
          = .ret (r1, w2) (none, some err)) := by
  refine ⟨?_, ?_, ?_⟩
  · intro models w2 h
    simp [FindWithLimit, hquery, h, toEntities_eq]
  · intro w2 h
    simp [FindWithLimit, hquery, h, toEntities_eq]
  · intro models err w2 h
    simp [FindWithLimit, hquery, h]

/-- Witness for C6: two stored users come back as two entities in table order,
an unmatched filter gives a non-nil empty slice, and a failing backend gives a
nil slice with its error. -/
theorem FindWithLimit_maps_rows_in_order_witness :
    FindWithLimit userEnv preloadingRepo twoUsers 0 10 0 []
      = .ret ({ preloadingRepo with associations := ["Tags"] }, { twoUsers with parseCalls := 1 })
          (some [⟨1, "a"⟩, ⟨2, "b"⟩], none) ∧
    FindWithLimit userEnv preloadingRepo twoUsers 0 10 0 [⟨"id >= ?", [5]⟩]
      = .ret ({ preloadingRepo with associations := ["Tags"] }, { twoUsers with parseCalls := 1 })
          (some [], none) ∧
    FindWithLimit cancelledEnv preloadingRepo twoUsers 0 10 0 []
      = .ret ({ preloadingRepo with associations := ["Tags"] }, { twoUsers with parseCalls := 1 })
          (none, some ⟨"context canceled"⟩) :=
  ⟨((FindWithLimit_maps_rows_in_order userEnv preloadingRepo twoUsers 0 10 0 []
      { preloadingRepo with associations := ["Tags"] } { twoUsers with parseCalls := 1 } _ rfl).1
      [⟨1, "a"⟩, ⟨2, "b"⟩] _ rfl).1,
   (FindWithLimit_maps_rows_in_order userEnv preloadingRepo twoUsers 0 10 0 [⟨"id >= ?", [5]⟩]
      { preloadingRepo with associations := ["Tags"] } { twoUsers with parseCalls := 1 } _ rfl).2.1
      _ rfl,
   (FindWithLimit_maps_rows_in_order cancelledEnv preloadingRepo twoUsers 0 10 0 []
      { preloadingRepo with associations := ["Tags"] } { twoUsers with parseCalls := 1 } _ rfl).2.2
      [] _ _ rfl⟩

/-- C8 as stated fails: identifier 7 matches no stored record, and `DeleteById`
returns nil, not the not-found error. -/
theorem DeleteById_missing_record_returns_nil :
    (twoUsers.rows.any (fun m => userSem.hasKey m 7)) = false ∧
    DeleteById userEnv preloadingRepo twoUsers 0 7 = .ret twoUsers none ∧
    DeleteById userEnv preloadingRepo twoUsers 0 7 ≠ .ret twoUsers (some ErrRecordNotFound) := by
  decide

/-- C8 amended: `DeleteById` returns exactly the error the driver's `Delete`
call reports, nil when it reports none, and leaves the world as that call left
it; it does not look at whether a record matched. -/
theorem DeleteById_returns_driver_error (env : Env W M E V) (r : GormRepository M V) (w : W)
    (ctx : Context) (id : V) :
    DeleteById env r w ctx id
      = .ret (env.Delete w (r.db.WithContext ctx) env.zeroM [id]).2
          (env.Delete w (r.db.WithContext ctx) env.zeroM [id]).1 := by
  unfold DeleteById
  rcases h : env.Delete w (r.db.WithContext ctx) env.zeroM [id] with ⟨err, w1⟩
  cases err <;> rfl

/-- C10: the preload flag is monotone.  A new repository has preload off; each
of the three configuration methods leaves the flag true, for either argument of
`SetPreloadAssociations`; and from a state where the flag is true no sequence
of public operations reaches a state where it is false, so after any
configuration call in a run the flag is true for the rest of the run. -/
theorem preload_flag_never_returns_to_false (env : Env W M E V) (db : DB M V) (w : W) :
    (NewRepository db).preloadAssocations = false ∧
    (∀ (r : GormRepository M V) (b : Bool),
        (EnablePreloadAssociations r).preloadAssocations = true ∧
        (DisablePreloadAssociations r).preloadAssocations = true ∧
        (SetPreloadAssociations r b).preloadAssocations = true) ∧
    (∀ (st : GormRepository M V × W) (ops : List (Op E V)),
        st.1.preloadAssocations = true → (run env st ops).1.preloadAssocations = true) ∧
    (∀ (ops1 ops2 : List (Op E V)) (b : Bool),
        (run env (NewRepository db, w)
          (ops1 ++ Op.EnablePreloadAssociations :: ops2)).1.preloadAssocations = true ∧
        (run env (NewRepository db, w)
          (ops1 ++ Op.DisablePreloadAssociations :: ops2)).1.preloadAssocations = true ∧
        (run env (NewRepository db, w)
          (ops1 ++ Op.SetPreloadAssociations b :: ops2)).1.preloadAssocations = true) := by
  refine ⟨rfl, ?_, ?_, ?_⟩
  · intro r b
    refine ⟨rfl, rfl, ?_⟩
    cases b <;> rfl
  · intro st ops h
    exact run_keeps_flag env ops st h
  · intro ops1 ops2 b
    refine ⟨?_, ?_, ?_⟩
    · rw [run_append]
      exact run_keeps_flag env ops2 _ rfl
    · rw [run_append]
      exact run_keeps_flag env ops2 _ rfl
    · rw [run_append]
      refine run_keeps_flag env ops2 _ ?_
      cases b <;> rfl

/-- Witness for C10: after `SetPreloadAssociations(false)` the flag is true and
stays true through a disable call, a query and an insert. -/
theorem preload_flag_never_returns_to_false_witness :
    (SetPreloadAssociations (NewRepository (DB.handle 0) : GormRepository UserModel Nat)
      false).preloadAssocations = true ∧
    (run userEnv
      (SetPreloadAssociations (NewRepository (DB.handle 0)) false, twoUsers)
      [Op.DisablePreloadAssociations, Op.FindAll 0, Op.Insert 0 ⟨0, "c"⟩]).1.preloadAssocations
        = true :=
  ⟨rfl,
   (preload_flag_never_returns_to_false userEnv (DB.handle 0) twoUsers).2.2.1
     (SetPreloadAssociations (NewRepository (DB.handle 0)) false, twoUsers)
     [Op.DisablePreloadAssociations, Op.FindAll 0, Op.Insert 0 ⟨0, "c"⟩] rfl⟩

/-! ## Count against Find -/

/-- C3: on the table backend, for every specification list and every backend
state on which both queries succeed, `Count` equals the length of the slice
`Find` returns (`FindWithLimit` with limit -1 and offset -1), whether or not
preload is enabled: both filter through `getPreWarmDbForSelect`, and `Find`
adds only eager-load directives and the two "none" bounds. -/
theorem Count_eq_length_Find (sem : TableSem M V) (zeroM : M) (zeroE : E) (model : GormModel M E)
    (r : GormRepository M V) (w : Store M) (ctx : Context) (S : List (Specification V))
    (c : Int) (es : List E) (st1 st2 : GormRepository M V × Store M)
    (hcount : Count (tableEnv sem zeroM zeroE model) r w ctx S = .ret st1 (c, none))
    (hfind : Find (tableEnv sem zeroM zeroE model) r w ctx S = .ret st2 (some es, none)) :
    c = (es.length : Int) := by
  have hrows : ∀ q : DB M V,
      ((preloadStage (tableEnv sem zeroM zeroE model) r w q).state.2).rows = w.rows := by
    intro q
    rcases (preloadStage_state (tableEnv sem zeroM zeroE model) r w q).1 with h | h
    · rw [h]
    · rw [h]
      rfl
  unfold Find FindWithLimit at hfind
  cases hst : preloadStage (tableEnv sem zeroM zeroE model) r w (getPreWarmDbForSelect r ctx S) with
  | panic st => simp [hst] at hfind
  | ret st q1 =>
    obtain ⟨r1, w1⟩ := st
    obtain ⟨names, hq1⟩ := preloadStage_query _ r w _ _ _ hst
    have hw1 : w1.rows = w.rows := by
      have := hrows (getPreWarmDbForSelect r ctx S)
      rw [hst] at this
      exact this
    simp only [hst] at hfind
    unfold Count at hcount
    simp only [tableEnv] at hfind hcount
    cases hfc : sem.fault ((getPreWarmDbForSelect r ctx S).Model zeroM) with
    | some err => simp [hfc] at hcount
    | none =>
      cases hff : sem.fault ((q1.Limit (-1)).Offset (-1)) with
      | some err => simp [hff] at hfind
      | none =>
        simp [hfc] at hcount
        simp [hff, toEntities_eq, bounded_unbounded] at hfind
        rw [← hcount.2, ← hfind.2, hw1]
        have hconds : ((q1.Limit (-1)).Offset (-1)).conds
            = ((getPreWarmDbForSelect r ctx S).Model zeroM).conds := by
          simp [DB.conds, hq1, conds_applyPreloads]
        simp [matching_congr sem _ _ w.rows hconds]

/-- Witness for C3: two users are stored, one has an identifier of at least 2;
`Count` says 1 and `Find` returns one entity, with preload enabled. -/
theorem Count_eq_length_Find_witness :
    Count userEnv preloadingRepo twoUsers 0 [⟨"id >= ?", [2]⟩]
      = .ret (preloadingRepo, twoUsers) (1, none) ∧
    Find userEnv preloadingRepo twoUsers 0 [⟨"id >= ?", [2]⟩]
      = .ret ({ preloadingRepo with associations := ["Tags"] }, { twoUsers with parseCalls := 1 })
          (some [⟨2, "b"⟩], none) ∧
    (1 : Int) = (([⟨2, "b"⟩] : List User).length : Int) :=
  ⟨rfl, rfl,
   Count_eq_length_Find userSem ⟨0, ""⟩ ⟨0, ""⟩ userMapper preloadingRepo twoUsers 0
     [⟨"id >= ?", [2]⟩] 1 [⟨2, "b"⟩] _ _ rfl rfl⟩

/-! ## Association resolution is repeated -/

/-- C1 on the code: with preload enabled, every list query invokes the schema
capability again.  One call gives one invocation, two calls give two, three
calls (one each of `FindWithLimit`, `Find`, `FindAll`) give three, and the
resolved marker is still false afterwards. -/
theorem introspection_runs_on_every_list_query :
    (run userEnv (preloadingRepo, twoUsers) [Op.FindAll 0]).2.parseCalls = 1 ∧
    (run userEnv (preloadingRepo, twoUsers) [Op.FindAll 0, Op.FindAll 0]).2.parseCalls = 2 ∧
    (run userEnv (preloadingRepo, twoUsers)
      [Op.FindWithLimit 0 10 0 [], Op.Find 0 [], Op.FindAll 0]).2.parseCalls = 3 ∧
    (run userEnv (preloadingRepo, twoUsers)
      [Op.FindWithLimit 0 10 0 [], Op.Find 0 [], Op.FindAll 0]).1.preloadAssocationsOk
        = false := by
  decide

/-- C9 on the code: the model declares one many-to-many relationship, `Tags`,
so its declared names are distinct; after two list queries with preload enabled
the cached list is `Tags, Tags`, which has a duplicate. -/
theorem associations_duplicated_by_second_query :
    ((userSem.parse ⟨0, ""⟩ (DB.handle 0)).1.map
      (fun sch => sch.Relationships.Many2Many.map (fun i => i.Name))) = some ["Tags"] ∧
    (["Tags"] : List String).Nodup ∧
    (run userEnv (preloadingRepo, twoUsers) [Op.FindAll 0]).1.associations = ["Tags"] ∧
    (run userEnv (preloadingRepo, twoUsers) [Op.FindAll 0, Op.FindAll 0]).1.associations
      = ["Tags", "Tags"] ∧
    ¬ (run userEnv (preloadingRepo, twoUsers) [Op.FindAll 0, Op.FindAll 0]).1.associations.Nodup := by
  decide

/-- C7 on the code: introspection fails with a nil schema and an error, preload
is enabled, and `FindWithLimit` panics on the nil schema instead of running the
query; with preload off the same query returns both users. -/
theorem FindWithLimit_panics_when_introspection_fails :
    (brokenSchemaEnv.Parse twoUsers ⟨0, ""⟩ (DB.handle 0)).1
      = (none, some ⟨"unsupported data type"⟩) ∧
    FindWithLimit brokenSchemaEnv preloadingRepo twoUsers 0 (-1) (-1) []
      = .panic (preloadingRepo, { twoUsers with parseCalls := 1 }) ∧
    (FindWithLimit brokenSchemaEnv preloadingRepo twoUsers 0 (-1) (-1) []).value? = none ∧
    FindWithLimit brokenSchemaEnv (NewRepository (DB.handle 0)) twoUsers 0 (-1) (-1) []
      = .ret (NewRepository (DB.handle 0), twoUsers) (some [⟨1, "a"⟩, ⟨2, "b"⟩], none) := by
  decide

end Claims

end GormGenerics
